import Mathlib

/-!
Shallow embedding of the core of the `favs` bookmark aggregator
(packages `bookmark`, `adapter`, `mcp`, and the orchestration in
`cmd/serve.go`), together with theorems settling the specification
claims about it.

Conventions of the embedding:
* Go strings are Lean `String`s; byte-level loops of the source are
  modelled on `String.data` (`List Char`).  The source only ever folds
  ASCII case (`equalIgnoreCase` adds 32 to `'A'..'Z'`), which is
  modelled exactly; `strings.ToLower` is modelled by the same ASCII
  fold.
* Go maps are modelled as association lists whose insert keeps keys
  unique (`mapInsert`); the `seen` set of `Deduplicate` is a list of
  URLs with decidable membership.
* Compiled regular expressions (`regexp.Regexp`) are modelled as match
  predicates `String → Bool`; patterns that fail to compile are simply
  absent from the list, mirroring the silent skip in `Filter`.
* Fallible adapter calls are modelled with `ReadResult`/`Bool` results
  carried by `InputAdapter`.
-/

namespace Favs

/-- `bookmark.Bookmark` (pkg/bookmark): a single bookmark record.
`DateAdded time.Time` is modelled as a `Nat` timestamp (0 = zero value). -/
structure Bookmark where
  title : String
  url : String
  folderPath : List String
  dateAdded : Nat
  source : String
  profile : String
  tags : List String
deriving DecidableEq

/-- `bookmark.SourceInfo`: one contribution descriptor of a collection.
`Count int` is modelled as `Int`. -/
structure SourceInfo where
  name : String
  profile : String
  path : String
  count : Int
deriving DecidableEq

/-- `bookmark.Collection`: aggregated bookmarks plus source descriptors. -/
structure Collection where
  bookmarks : List Bookmark
  sources : List SourceInfo
deriving DecidableEq

/-- `bookmark.NewCollection`: the empty collection. -/
def NewCollection : Collection := ⟨[], []⟩

/-- `(*Collection).Add`: append bookmarks with source attribution; the
descriptor's `Count` is set to `len(bookmarks)`. -/
def Collection.Add (c : Collection) (bs : List Bookmark) (source : SourceInfo) : Collection :=
  { bookmarks := c.bookmarks ++ bs
    sources := c.sources ++ [{ source with count := (bs.length : Int) }] }

/-- `(*Collection).Count`: total number of bookmarks. -/
def Collection.CountBookmarks (c : Collection) : Nat :=
  c.bookmarks.length

/-- Sum of the `Count` fields of a descriptor list (the quantity of the
collection invariant `sum(sourceDescriptor.count) == len(bookmarks)`). -/
def sumCounts (sources : List SourceInfo) : Int :=
  (sources.map (·.count)).sum

/-- `bookmark.FilterOptions`.  `ExcludeURLPatterns []string` is modelled as
the list of match predicates of the successfully compiled patterns. -/
structure FilterOptions where
  includeFolders : List String
  excludeFolders : List String
  excludeURLPatterns : List (String → Bool)
  excludeProtocols : List String
  warnProtocols : List String
  maxURLLength : Int
  warnURLLength : Int

/-- `bookmark.FilterResult`. -/
structure FilterResult where
  bookmarks : List Bookmark
  warnings : List String
  excluded : Nat
deriving DecidableEq

/-- ASCII case fold of one character, as in the source's
`equalIgnoreCase` (add 32 to `'A'..'Z'`). -/
def charToLower (c : Char) : Char :=
  if 'A' ≤ c ∧ c ≤ 'Z' then Char.ofNat (c.toNat + 32) else c

/-- `strings.ToLower`, restricted to the ASCII fold used by the source. -/
def strToLower (s : String) : String :=
  (s.data.map charToLower).asString

/-- Helper for `strings.Contains` on character lists: does `sub` occur as a
contiguous sublist of `s`? -/
def strContainsAux (s sub : List Char) : Bool :=
  List.isPrefixOf sub s ||
    match s with
    | [] => false
    | _ :: t => strContainsAux t sub

/-- `strings.Contains s sub`. -/
def strContains (s sub : String) : Bool :=
  strContainsAux s.data sub.data

/-- `bookmark.extractProtocol`: the lower-cased part of the URL before the
first `':'`; empty if there is no `':'` or it is the first character
(`idx <= 0` in the source). -/
def extractProtocol (url : String) : String :=
  let pre := url.data.takeWhile (fun c => c ≠ ':')
  if pre.length = url.data.length then ""
  else if pre.length = 0 then ""
  else (pre.map charToLower).asString

/-- `bookmark.truncate`: shorten to `maxLen` characters, appending `"..."`. -/
def truncate (s : String) (maxLen : Nat) : String :=
  if s.length ≤ maxLen then s
  else if maxLen ≤ 3 then (s.data.take maxLen).asString
  else (s.data.take (maxLen - 3)).asString ++ "..."

/-- `strings.Join(b.FolderPath, "/")` as computed inside `Filter`. -/
def folderStr (b : Bookmark) : String :=
  String.intercalate "/" b.folderPath

/-- The per-record exclusion decision of `bookmark.Filter`, with the exact
rule order of the source: protocol, URL length, folder inclusion, folder
exclusion, URL pattern. -/
def bookmarkExcluded (opts : FilterOptions) (b : Bookmark) : Bool :=
  let proto := extractProtocol b.url
  if (opts.excludeProtocols.map strToLower).contains proto then true
  else if opts.maxURLLength > 0 ∧ (b.url.length : Int) > opts.maxURLLength then true
  else if opts.includeFolders.length > 0 ∧
      ¬ (opts.includeFolders.any (fun inc => strContains (folderStr b) inc)) then true
  else if opts.excludeFolders.any (fun exc => strContains (folderStr b) exc) then true
  else if opts.excludeURLPatterns.any (fun p => p b.url) then true
  else false

/-- The warnings `bookmark.Filter` emits for a kept record: a protocol
warning and, independently, a URL-length warning. -/
def bookmarkWarnings (opts : FilterOptions) (b : Bookmark) : List String :=
  let proto := extractProtocol b.url
  (if (opts.warnProtocols.map strToLower).contains proto then
    ["bookmark '" ++ truncate b.title 40 ++ "' uses protocol '" ++ proto ++ "': "
      ++ truncate b.url 60]
  else []) ++
  (if opts.warnURLLength > 0 ∧ (b.url.length : Int) > opts.warnURLLength then
    ["bookmark '" ++ truncate b.title 40 ++ "' has long URL (" ++ toString b.url.length
      ++ " chars): " ++ truncate b.url 60]
  else [])

/-- `bookmark.Filter`: apply the rule set to each record in order, keeping
order, counting exclusions and collecting warnings.  The source builds its
result by appending inside a loop; this recursion produces the identical
lists. -/
def Filter : List Bookmark → FilterOptions → FilterResult
  | [], _ => ⟨[], [], 0⟩
  | b :: rest, opts =>
    let r := Filter rest opts
    if bookmarkExcluded opts b then
      ⟨r.bookmarks, r.warnings, r.excluded + 1⟩
    else
      ⟨b :: r.bookmarks, bookmarkWarnings opts b ++ r.warnings, r.excluded⟩

/-- The loop of `bookmark.Deduplicate` with its `seen` set made explicit:
skip a record whose URL was already seen, otherwise keep it and record its
URL. -/
def dedupGo (seen : List String) : List Bookmark → List Bookmark
  | [] => []
  | b :: rest =>
    if b.url ∈ seen then dedupGo seen rest
    else b :: dedupGo (b.url :: seen) rest

/-- `bookmark.Deduplicate`: drop records whose exact URL occurred earlier. -/
def Deduplicate (bookmarks : List Bookmark) : List Bookmark :=
  dedupGo [] bookmarks

/-- Outcome of an adapter's `Read(ctx)` call: a record list or an error. -/
inductive ReadResult where
  | ok : List Bookmark → ReadResult
  | err : String → ReadResult
deriving DecidableEq

/-- An input adapter (`input.Adapter`) as the registry, orchestrator and
server observe it: identity, availability, diagnostic path, the outcome of
its `Configure` call (`configureOK = true` ⟺ nil error) and the outcome of
its `Read` call. -/
structure InputAdapter where
  name : String
  displayName : String
  available : Bool
  path : String
  configureOK : Bool
  readResult : ReadResult
deriving DecidableEq

/-- The `inputs` map of package `adapter`, as an association list with
unique keys. -/
abbrev Registry := List (String × InputAdapter)

/-- Go map insertion `m[k] = v`: the binding for `k` is replaced. -/
def mapInsert (m : Registry) (k : String) (v : InputAdapter) : Registry :=
  m.filter (fun kv => !(kv.1 == k)) ++ [(k, v)]

/-- `adapter.RegisterInput`: bind `adapter.Name()` to the adapter,
overwriting any previous binding. -/
def RegisterInput (m : Registry) (a : InputAdapter) : Registry :=
  mapInsert m a.name a

/-- `adapter.GetInput`: map lookup by name. -/
def GetInput (m : Registry) (name : String) : Option InputAdapter :=
  (m.find? (fun kv => kv.1 == name)).map (·.2)

/-- Lexicographic comparison of character lists, the order `sort.Strings`
sorts by (byte-wise for Go; identical on the ASCII adapter names). -/
def charListLe : List Char → List Char → Bool
  | [], _ => true
  | _ :: _, [] => false
  | a :: as, b :: bs =>
    if a < b then true
    else if b < a then false
    else charListLe as bs

/-- String comparison underlying `sort.Strings`. -/
def strLeB (a b : String) : Bool :=
  charListLe a.data b.data

/-- The order `sort.Strings` establishes, as a proposition. -/
def strLe (a b : String) : Prop :=
  strLeB a b = true

/-- Insert a string into an already sorted list (helper of `sortStrings`). -/
def orderedInsertStr (a : String) : List String → List String
  | [] => [a]
  | b :: l => if strLeB a b then a :: b :: l else b :: orderedInsertStr a l

/-- `sort.Strings`: sort a list of strings lexicographically (modelled by
insertion sort; `sort.Strings` produces the same, unique, sorted
arrangement). -/
def sortStrings : List String → List String
  | [] => []
  | b :: l => orderedInsertStr b (sortStrings l)

/-- `adapter.ListInputs`: the registered names, sorted (`sort.Strings`). -/
def ListInputs (m : Registry) : List String :=
  sortStrings (m.map (·.1))

/-- A sequence of `RegisterInput` calls starting from the empty registry. -/
def applyRegs (regs : List InputAdapter) : Registry :=
  regs.foldl RegisterInput []

/-- The per-source configuration returned by `config.GetInputConfig`
(the fields `readAllInputs` and the server consult). -/
structure InputConfig where
  enabled : Bool
  profile : String
  customPath : String
deriving DecidableEq

/-- The whole configuration, as the map from source name to its config. -/
abbrev Config := String → InputConfig

/-- `cmd/serve.go inputPreference`: fixed preference order of sources. -/
def inputPreference : List String :=
  ["chrome", "firefox", "edge", "safari", "chromium", "brave"]

/-- One iteration of the all-sources loop (the body shared by
`readAllInputs` in cmd/serve.go and the populate loop of
`(*Server).getBookmarks` in pkg/mcp): skip an unregistered, disabled,
unavailable or misconfiguring source, skip a failed read, and append a
contribution only when the read returned at least one record, labelling it
with the first record's profile. -/
def readOneInput (cfg : Config) (reg : Registry) (c : Collection) (name : String) : Collection :=
  match GetInput reg name with
  | none => c
  | some inp =>
    if !(cfg name).enabled then c
    else if !inp.available then c
    else if !inp.configureOK then c
    else
      match inp.readResult with
      | .err _ => c
      | .ok bookmarks =>
        match bookmarks with
        | [] => c
        | b0 :: _ =>
          c.Add bookmarks { name := name, profile := b0.profile, path := inp.path, count := 0 }

/-- `cmd/serve.go readAllInputs`: iterate `inputPreference`, appending each
eligible source's contribution.  The Go function's error result is the
constant `nil` (`return nil`), so the embedding is total. -/
def readAllInputs (cfg : Config) (reg : Registry) (c : Collection) : Collection :=
  inputPreference.foldl (readOneInput cfg reg) c

/-- The descriptor a source contributes in the all-sources loop, or `none`
when it is skipped (used to characterise `readAllInputs`). -/
def descriptorOf (cfg : Config) (reg : Registry) (name : String) : Option SourceInfo :=
  match GetInput reg name with
  | none => none
  | some inp =>
    if (cfg name).enabled && inp.available && inp.configureOK then
      match inp.readResult with
      | .err _ => none
      | .ok bookmarks =>
        match bookmarks with
        | [] => none
        | b0 :: _ =>
          some { name := name, profile := b0.profile, path := inp.path
                 count := (bookmarks.length : Int) }
    else none

/-- The records a source contributes in the all-sources loop (used to
characterise `readAllInputs`). -/
def recordsOf (cfg : Config) (reg : Registry) (name : String) : List Bookmark :=
  match GetInput reg name with
  | none => []
  | some inp =>
    if (cfg name).enabled && inp.available && inp.configureOK then
      match inp.readResult with
      | .err _ => []
      | .ok bookmarks => if bookmarks.isEmpty then [] else bookmarks
    else []

/-- The post-filter update of `cmd/serve.go runSync` (lines 185–205): apply
`Filter`, optionally `Deduplicate`, and rebuild the collection with the
filtered bookmarks but the ORIGINAL `Sources` slice. -/
def runSyncFilteredCollection (c : Collection) (opts : FilterOptions) (dedupe : Bool) :
    Collection :=
  let filterResult := Filter c.bookmarks opts
  let filtered := if dedupe then Deduplicate filterResult.bookmarks else filterResult.bookmarks
  { bookmarks := filtered, sources := c.sources }

/-- `output.RenderOptions`. -/
structure RenderOptions where
  includeMetadata : Bool
  includeDates : Bool
  includeTags : Bool
  includeProfile : Bool
  groupBySource : Bool
  sortAlpha : Bool
  style : String
deriving DecidableEq

/-- `output.DefaultRenderOptions`. -/
def DefaultRenderOptions : RenderOptions :=
  { includeMetadata := true, includeDates := true, includeTags := true
    includeProfile := true, groupBySource := true, sortAlpha := false, style := "" }

/-- The mutable state of the MCP `Server`: the lazily populated cache
(`cache *bookmark.Collection`; `none` = nil = invalidated). -/
structure ServerState where
  cache : Option Collection
deriving DecidableEq

/-- The populate step of `(*Server).getBookmarks`: iterate
`adapter.ListInputs()` with the shared all-sources loop body. -/
def mcpReadAll (cfg : Config) (reg : Registry) : Collection :=
  (ListInputs reg).foldl (readOneInput cfg reg) NewCollection

/-- Whether the populate loop reaches the `inp.Read(ctx)` call for a given
source (registered, enabled, available, configured without error). -/
def readInvoked (cfg : Config) (reg : Registry) (name : String) : Bool :=
  match GetInput reg name with
  | none => false
  | some inp => (cfg name).enabled && inp.available && inp.configureOK

/-- How many source-reader `Read` calls one populate run performs. -/
def mcpReadCount (cfg : Config) (reg : Registry) : Nat :=
  ((ListInputs reg).filter (readInvoked cfg reg)).length

/-- `(*Server).getBookmarks`: return the cached collection if the cache is
non-nil, else run the all-sources read path, store it, and return it.  The
`uri` argument is received but never consulted, exactly as in the source.
The third component instruments the number of source-reader `Read` calls
the invocation performed (0 on a cache hit). -/
def getBookmarks (cfg : Config) (reg : Registry) (st : ServerState) (uri : String) :
    Collection × ServerState × Nat :=
  match st.cache with
  | some c =>
    let _ := uri
    (c, st, 0)
  | none =>
    let c := mcpReadAll cfg reg
    (c, ⟨some c⟩, mcpReadCount cfg reg)

/-- `(*Server).toolSyncBookmarks`: clear the cache, then repopulate via
`getBookmarks(ctx, "favs://all")` and report the synced collection. -/
def toolSyncBookmarks (cfg : Config) (reg : Registry) (st : ServerState) :
    Collection × ServerState × Nat :=
  let cleared : ServerState := ⟨none⟩
  let _ := st
  getBookmarks cfg reg cleared "favs://all"

/-- What `(*Server).handleResourcesRead` hands to the renderer and reports:
the collection resolved by `getBookmarks` (never narrowed by the URI), the
default render options, and the media-type label derived from the URI. -/
structure ResourceReadResult where
  collection : Collection
  renderOpts : RenderOptions
  mimeType : String
  uri : String
deriving DecidableEq

/-- `(*Server).handleResourcesRead`: resolve the collection through the
cache, choose `markdown` only for the exact URI `favs://markdown` and
`json` otherwise, and render with `output.DefaultRenderOptions()`. -/
def handleResourcesRead (cfg : Config) (reg : Registry) (st : ServerState) (uri : String) :
    ResourceReadResult × ServerState × Nat :=
  let (c, st2, n) := getBookmarks cfg reg st uri
  let format := if uri == "favs://markdown" then "markdown" else "json"
  let mime := if format == "markdown" then "text/markdown" else "application/json"
  (⟨c, DefaultRenderOptions, mime, uri⟩, st2, n)

/-- `equalIgnoreCase` (pkg/mcp): byte-wise comparison with ASCII fold. -/
def equalIgnoreCase (a b : List Char) : Bool :=
  if a.length ≠ b.length then false
  else (a.zip b).all (fun p => charToLower p.1 == charToLower p.2)

/-- `containsIgnoreCaseImpl` (pkg/mcp): scan all windows of length
`len(sub)` (the Go loop runs for `i ≤ len(s) - len(sub)`). -/
def containsIgnoreCaseImpl (s sub : List Char) : Bool :=
  if s.length < sub.length then false
  else if equalIgnoreCase (s.take sub.length) sub then true
  else
    match s with
    | [] => false
    | _ :: t => containsIgnoreCaseImpl t sub

/-- `containsIgnoreCase` (pkg/mcp), with the exact guard structure of the
source: `len(s) >= len(substr) && (s == substr || len(substr) == 0 ||
(len(s) > 0 && containsIgnoreCaseImpl(s, substr)))`. -/
def containsIgnoreCase (s sub : String) : Bool :=
  decide (s.data.length ≥ sub.data.length) &&
    (s == sub || sub.data.length == 0 ||
      (decide (s.data.length > 0) && containsIgnoreCaseImpl s.data sub.data))

/-- The match loop of `(*Server).toolSearchBookmarks`: keep the bookmarks
whose title or URL contains the query case-insensitively, in order. -/
def searchMatches (c : Collection) (query : String) : List Bookmark :=
  c.bookmarks.filter (fun b => containsIgnoreCase b.title query || containsIgnoreCase b.url query)

/-- `(*Server).toolSearchBookmarks`: resolve the cached collection via
`getBookmarks(ctx, "favs://all")`, compute the matches, and report them
together with the match count of the response text (`Found %d matches`). -/
def toolSearchBookmarks (cfg : Config) (reg : Registry) (st : ServerState) (query : String) :
    (List Bookmark × Nat) × ServerState × Nat :=
  let (c, st2, n) := getBookmarks cfg reg st "favs://all"
  let found := searchMatches c query
  ((found, found.length), st2, n)

/-! ## Concrete fixtures used by witnesses and counterexamples -/

/-- A configuration with every source enabled and no overrides. -/
def cfgAllEnabled : Config := fun _ => ⟨true, "", ""⟩

/-- A concrete chromium bookmark. -/
def bkChromium : Bookmark :=
  ⟨"GitHub", "https://github.com", ["Bookmarks"], 0, "chromium", "default", []⟩

/-- A concrete safari bookmark. -/
def bkSafari : Bookmark :=
  ⟨"Docs", "https://docs.example", [], 0, "safari", "default", []⟩

/-- A chromium adapter whose read succeeds with one bookmark. -/
def advChromium : InputAdapter :=
  ⟨"chromium", "Chromium", true, "/home/u/.config/chromium", true, .ok [bkChromium]⟩

/-- A safari adapter whose read succeeds with one bookmark. -/
def advSafari : InputAdapter :=
  ⟨"safari", "Apple Safari", true, "/Users/u/Library/Safari/Bookmarks.plist", true,
    .ok [bkSafari]⟩

/-- Registry with only the chromium adapter. -/
def regOne : Registry := RegisterInput [] advChromium

/-- Registry with the chromium and safari adapters. -/
def regTwo : Registry := RegisterInput (RegisterInput [] advChromium) advSafari

/-- First adapter registered under the name `x`. -/
def advA : InputAdapter := ⟨"x", "A", true, "", true, .ok []⟩

/-- Second adapter registered under the name `x`. -/
def advB : InputAdapter := ⟨"x", "B", true, "", true, .ok []⟩

/-- A chrome adapter whose read succeeds with zero records. -/
def advEmptyChrome : InputAdapter := ⟨"chrome", "Chrome", true, "/p", true, .ok []⟩

/-- Registry with only the empty-read chrome adapter. -/
def regEmptyRead : Registry := RegisterInput [] advEmptyChrome

/-- A plain http bookmark. -/
def bkPlain : Bookmark := ⟨"A", "http://a", [], 0, "chrome", "d", []⟩

/-- A javascript-scheme bookmark. -/
def bkJS : Bookmark := ⟨"B", "javascript:alert(1)", [], 0, "chrome", "d", []⟩

/-- A rule set that excludes the `javascript` protocol and nothing else. -/
def optsNoJS : FilterOptions := ⟨[], [], [], ["javascript"], [], 0, 0⟩

/-- A concrete two-source collection used as a cache content. -/
def colW : Collection :=
  ⟨[bkChromium, bkSafari],
    [⟨"chromium", "default", "/p", 1⟩, ⟨"safari", "default", "/q", 1⟩]⟩

/-- A concrete descriptor used in witnesses. -/
def srcD : SourceInfo := ⟨"chrome", "d", "/p", 0⟩

/-! ## Helper lemmas about the filter engine -/

theorem Filter_nil (opts : FilterOptions) : Filter [] opts = ⟨[], [], 0⟩ := rfl

theorem Filter_cons (b : Bookmark) (rest : List Bookmark) (opts : FilterOptions) :
    Filter (b :: rest) opts =
      if bookmarkExcluded opts b then
        ⟨(Filter rest opts).bookmarks, (Filter rest opts).warnings, (Filter rest opts).excluded + 1⟩
      else
        ⟨b :: (Filter rest opts).bookmarks,
          bookmarkWarnings opts b ++ (Filter rest opts).warnings, (Filter rest opts).excluded⟩ := by
  simp [Filter]

/-! ## Helper lemmas about deduplication -/

theorem dedupGo_sublist (seen : List String) (l : List Bookmark) :
    (dedupGo seen l).Sublist l := by
  induction l generalizing seen with
  | nil => simp [dedupGo]
  | cons b rest ih =>
    simp only [dedupGo]
    split
    · exact (ih seen).cons b
    · exact (ih (b.url :: seen)).cons₂ b

theorem url_not_mem_seen_of_mem_dedupGo (seen : List String) (l : List Bookmark)
    (b : Bookmark) (hb : b ∈ dedupGo seen l) : b.url ∉ seen := by
  induction l generalizing seen with
  | nil => simp [dedupGo] at hb
  | cons a rest ih =>
    simp only [dedupGo] at hb
    split at hb
    · exact ih seen hb
    · rcases List.mem_cons.mp hb with h | h
      · subst h
        assumption
      · intro hmem
        exact ih (a.url :: seen) h (List.mem_cons_of_mem _ hmem)

theorem dedupGo_urls_nodup (seen : List String) (l : List Bookmark) :
    ((dedupGo seen l).map (·.url)).Nodup := by
  induction l generalizing seen with
  | nil => simp [dedupGo]
  | cons b rest ih =>
    simp only [dedupGo]
    split
    · exact ih seen
    · refine List.nodup_cons.mpr ⟨?_, ih (b.url :: seen)⟩
      intro hmem
      rcases List.mem_map.mp hmem with ⟨b', hb', hurl⟩
      exact url_not_mem_seen_of_mem_dedupGo _ _ b' hb' (hurl ▸ List.mem_cons_self _ _)

theorem dedupGo_fixed (seen : List String) (l : List Bookmark)
    (hseen : ∀ b ∈ l, b.url ∉ seen) (hnodup : (l.map (·.url)).Nodup) :
    dedupGo seen l = l := by
  induction l generalizing seen with
  | nil => simp [dedupGo]
  | cons b rest ih =>
    have hb : b.url ∉ seen := hseen b (List.mem_cons_self _ _)
    simp only [dedupGo, if_neg hb]
    congr 1
    rcases List.nodup_cons.mp hnodup with ⟨hhead, htail⟩
    refine ih (b.url :: seen) (fun b' hb' => ?_) htail
    intro hmem
    rcases List.mem_cons.mp hmem with h | h
    · exact hhead (List.mem_map.mpr ⟨b', hb', h⟩)
    · exact hseen b' (List.mem_cons_of_mem _ hb') h

theorem dedupGo_find? (seen : List String) (l : List Bookmark) (u : String)
    (hu : u ∉ seen) :
    (dedupGo seen l).find? (fun b => b.url == u) = l.find? (fun b => b.url == u) := by
  induction l generalizing seen with
  | nil => simp [dedupGo]
  | cons b rest ih =>
    simp only [dedupGo]
    split
    · have hne : (b.url == u) = false := by
        rename_i hmem
        refine beq_false_of_ne (fun h => hu (h ▸ hmem))
      rw [ih seen hu, List.find?_cons, hne]
    · by_cases he : b.url = u
      · subst he
        simp [List.find?_cons]
      · have hne : (b.url == u) = false := beq_false_of_ne he
        rw [List.find?_cons, List.find?_cons, hne]
        simp only [cond_false]
        exact ih (b.url :: seen) (by
          intro hmem
          rcases List.mem_cons.mp hmem with h | h
          · exact he h.symm
          · exact hu h)

/-! ## Claim theorems: filter engine and deduplication -/

/-- Claim C5: for every record sequence `R` and rule set `F`, the filter
engine's exclusion counter plus the number of kept records equals the
number of input records:
`(Filter R F).excluded + (Filter R F).bookmarks.length = R.length`. -/
theorem filter_excluded_plus_kept_eq_total (R : List Bookmark) (F : FilterOptions) :
    (Filter R F).excluded + (Filter R F).bookmarks.length = R.length := by
  induction R with
  | nil => simp [Filter]
  | cons b rest ih =>
    rw [Filter_cons]
    split <;> simp only [List.length_cons] <;> omega

/-- Claim C6: for every record sequence `R` and rule set `F`, the kept
records of the filter engine form a subsequence of `R` in the original
order (the engine is stable and non-reordering). -/
theorem filter_kept_sublist (R : List Bookmark) (F : FilterOptions) :
    (Filter R F).bookmarks.Sublist R := by
  induction R with
  | nil => simp [Filter]
  | cons b rest ih =>
    rw [Filter_cons]
    split
    · exact ih.cons b
    · exact ih.cons₂ b

/-- Claim C8: deduplication is idempotent, keeps exactly the first
occurrence of each repeated URL and preserves the order of the remaining
records: `Deduplicate (Deduplicate R) = Deduplicate R`; the result is an
order-preserving subsequence of `R` with pairwise distinct URLs, and for
every URL the retained record is the first record of `R` carrying it. -/
theorem deduplicate_idempotent_first_occurrence (R : List Bookmark) :
    Deduplicate (Deduplicate R) = Deduplicate R ∧
    (Deduplicate R).Sublist R ∧
    ((Deduplicate R).map (·.url)).Nodup ∧
    ∀ u : String, (Deduplicate R).find? (fun b => b.url == u) =
      R.find? (fun b => b.url == u) := by
  refine ⟨?_, dedupGo_sublist [] R, dedupGo_urls_nodup [] R,
    fun u => dedupGo_find? [] R u (by simp)⟩
  exact dedupGo_fixed [] (dedupGo [] R)
    (fun b _ => by simp) (dedupGo_urls_nodup [] R)

/-! ## Helper lemmas about the adapter registry -/

theorem find?_mapInsert_self (m : Registry) (k : String) (v : InputAdapter) :
    (mapInsert m k v).find? (fun kv => kv.1 == k) = some (k, v) := by
  unfold mapInsert
  induction m with
  | nil => simp
  | cons kv rest ih =>
    by_cases h : kv.1 = k
    · simp [List.filter_cons, h]
    · simp [List.filter_cons, h, List.find?_cons, beq_false_of_ne h]

theorem mem_keys_mapInsert (m : Registry) (k n : String) (v : InputAdapter) :
    n ∈ (mapInsert m k v).map (·.1) ↔ n ∈ m.map (·.1) ∨ n = k := by
  simp only [mapInsert, List.map_append, List.mem_append, List.mem_map, List.mem_filter]
  constructor
  · rintro (⟨a, ⟨ham, hne⟩, rfl⟩ | h)
    · exact Or.inl ⟨a, ham, rfl⟩
    · simp at h
      exact Or.inr h.symm
  · rintro (⟨a, ham, rfl⟩ | rfl)
    · by_cases hk : a.1 = k
      · exact Or.inr (by simp [hk])
      · exact Or.inl ⟨a, ⟨ham, by simp [hk]⟩, rfl⟩
    · exact Or.inr (by simp)

theorem mem_keys_foldl_RegisterInput (regs : List InputAdapter) (n : String) :
    ∀ m : Registry,
      (n ∈ (regs.foldl RegisterInput m).map (·.1) ↔
        n ∈ m.map (·.1) ∨ n ∈ regs.map (·.name)) := by
  induction regs with
  | nil => intro m; simp
  | cons a rest ih =>
    intro m
    simp only [List.foldl_cons, List.map_cons, List.mem_cons]
    rw [ih (RegisterInput m a)]
    unfold RegisterInput
    rw [mem_keys_mapInsert]
    tauto

theorem charListLe_total : ∀ as bs : List Char,
    charListLe as bs = true ∨ charListLe bs as = true
  | [], _ => Or.inl rfl
  | _ :: _, [] => Or.inr rfl
  | a :: as, b :: bs => by
    by_cases hab : a < b
    · left
      simp [charListLe, hab]
    · by_cases hba : b < a
      · right
        simp [charListLe, hba]
      · rcases charListLe_total as bs with h | h
        · left
          simp [charListLe, hab, hba, h]
        · right
          simp [charListLe, hba, hab, h]

theorem charListLe_trans : ∀ as bs cs : List Char,
    charListLe as bs = true → charListLe bs cs = true → charListLe as cs = true
  | [], _, _ => by
    intro _ _
    rfl
  | _ :: _, [], _ => by
    intro h _
    simp [charListLe] at h
  | _ :: _, _ :: _, [] => by
    intro _ h
    simp [charListLe] at h
  | a :: as, b :: bs, c :: cs => by
    intro h1 h2
    by_cases hab : a < b
    · by_cases hbc : b < c
      · simp [charListLe, lt_trans hab hbc]
      · by_cases hcb : c < b
        · simp [charListLe, hbc, hcb] at h2
        · have hbceq : b = c := by
            rcases lt_trichotomy b c with h | h | h
            · exact absurd h hbc
            · exact h
            · exact absurd h hcb
          subst hbceq
          simp [charListLe, hab]
    · by_cases hba : b < a
      · simp [charListLe, hab, hba] at h1
      · have habeq : a = b := by
          rcases lt_trichotomy a b with h | h | h
          · exact absurd h hab
          · exact h
          · exact absurd h hba
        subst habeq
        simp only [charListLe, if_neg hab, if_neg hba] at h1
        by_cases hac : a < c
        · simp [charListLe, hac]
        · by_cases hca : c < a
          · simp [charListLe, hac, hca] at h2
          · simp only [charListLe, if_neg hac, if_neg hca] at h2 ⊢
            exact charListLe_trans as bs cs h1 h2

theorem strLe_trans (a b c : String) (h1 : strLe a b) (h2 : strLe b c) : strLe a c :=
  charListLe_trans a.data b.data c.data h1 h2

theorem strLe_total (a b : String) : strLe a b ∨ strLe b a :=
  charListLe_total a.data b.data

theorem mem_orderedInsertStr (a n : String) (l : List String) :
    n ∈ orderedInsertStr a l ↔ n = a ∨ n ∈ l := by
  induction l with
  | nil => simp [orderedInsertStr]
  | cons b t ih =>
    simp only [orderedInsertStr]
    split
    · simp [List.mem_cons]
    · rw [List.mem_cons, ih, List.mem_cons]
      tauto

theorem sorted_orderedInsertStr (a : String) (l : List String)
    (hl : l.Sorted strLe) : (orderedInsertStr a l).Sorted strLe := by
  induction l with
  | nil => simp [orderedInsertStr]
  | cons b t ih =>
    rcases List.sorted_cons.mp hl with ⟨hb, ht⟩
    simp only [orderedInsertStr]
    split
    · rename_i hab
      refine List.sorted_cons.mpr ⟨?_, hl⟩
      intro x hx
      rcases List.mem_cons.mp hx with rfl | hx
      · exact hab
      · exact strLe_trans _ _ _ hab (hb x hx)
    · rename_i hab
      refine List.sorted_cons.mpr ⟨?_, ih ht⟩
      intro x hx
      rcases (mem_orderedInsertStr a x t).mp hx with rfl | hx
      · rcases strLe_total b x with h | h
        · exact h
        · exact absurd h hab
      · exact hb x hx

theorem sorted_sortStrings (l : List String) : (sortStrings l).Sorted strLe := by
  induction l with
  | nil => simp [sortStrings]
  | cons b t ih => exact sorted_orderedInsertStr b _ ih

theorem mem_sortStrings (n : String) (l : List String) :
    n ∈ sortStrings l ↔ n ∈ l := by
  induction l with
  | nil => simp [sortStrings]
  | cons b t ih =>
    simp only [sortStrings]
    rw [mem_orderedInsertStr, ih, List.mem_cons]

/-! ## Claim theorem: adapter registry -/

/-- Claim C9: for the adapter registry, after `RegisterInput` binds the
name `x` to `A` and then to `B`, `GetInput x` returns `B` (last
registration wins); and for every registration sequence, `ListInputs`
returns exactly the registered names, sorted in the lexicographic
(alphabetical) order of `sort.Strings` — hence independent of the
registration order. -/
theorem registry_last_wins_and_sorted_listing :
    (∀ (m : Registry) (a b : InputAdapter), a.name = "x" → b.name = "x" →
        GetInput (RegisterInput (RegisterInput m a) b) "x" = some b) ∧
    (∀ regs : List InputAdapter,
        (ListInputs (applyRegs regs)).Sorted strLe ∧
        ∀ n : String, n ∈ ListInputs (applyRegs regs) ↔ n ∈ regs.map (·.name)) := by
  constructor
  · intro m a b ha hb
    show GetInput (mapInsert (mapInsert m a.name a) b.name b) "x" = some b
    rw [ha, hb]
    unfold GetInput
    rw [find?_mapInsert_self]
    rfl
  · intro regs
    refine ⟨sorted_sortStrings _, fun n => ?_⟩
    unfold ListInputs applyRegs
    rw [mem_sortStrings]
    simpa using mem_keys_foldl_RegisterInput regs n []

/-- Witness for C9 at concrete adapters `advA`, `advB` (both named `x`)
and the empty initial registry. -/
theorem registry_last_wins_witness :
    GetInput (RegisterInput (RegisterInput [] advA) advB) "x" = some advB :=
  registry_last_wins_and_sorted_listing.1 [] advA advB rfl rfl

/-! ## Helper lemmas about the all-sources read loop -/

theorem readOneInput_sources (cfg : Config) (reg : Registry) (c : Collection) (name : String) :
    (readOneInput cfg reg c name).sources = c.sources ++ (descriptorOf cfg reg name).toList := by
  unfold readOneInput descriptorOf
  cases hg : GetInput reg name with
  | none => simp
  | some inp =>
    cases hcfg : (cfg name).enabled with
    | false => simp [hcfg]
    | true =>
      cases hav : inp.available with
      | false => simp [hcfg, hav]
      | true =>
        cases hco : inp.configureOK with
        | false => simp [hcfg, hav, hco]
        | true =>
          cases hr : inp.readResult with
          | err e => simp [hcfg, hav, hco, hr]
          | ok bs =>
            cases bs with
            | nil => simp [hcfg, hav, hco, hr]
            | cons b0 rest => simp [hcfg, hav, hco, hr, Collection.Add]

theorem readOneInput_bookmarks (cfg : Config) (reg : Registry) (c : Collection) (name : String) :
    (readOneInput cfg reg c name).bookmarks = c.bookmarks ++ recordsOf cfg reg name := by
  unfold readOneInput recordsOf
  cases hg : GetInput reg name with
  | none => simp
  | some inp =>
    cases hcfg : (cfg name).enabled with
    | false => simp [hcfg]
    | true =>
      cases hav : inp.available with
      | false => simp [hcfg, hav]
      | true =>
        cases hco : inp.configureOK with
        | false => simp [hcfg, hav, hco]
        | true =>
          cases hr : inp.readResult with
          | err e => simp [hcfg, hav, hco, hr]
          | ok bs =>
            cases bs with
            | nil => simp [hcfg, hav, hco, hr]
            | cons b0 rest => simp [hcfg, hav, hco, hr, Collection.Add]

theorem foldl_readOneInput_sources (cfg : Config) (reg : Registry) :
    ∀ (names : List String) (c : Collection),
      (names.foldl (readOneInput cfg reg) c).sources
        = c.sources ++ names.filterMap (descriptorOf cfg reg) := by
  intro names
  induction names with
  | nil => intro c; simp
  | cons name rest ih =>
    intro c
    simp only [List.foldl_cons, List.filterMap_cons]
    rw [ih (readOneInput cfg reg c name)]
    rw [readOneInput_sources]
    cases descriptorOf cfg reg name <;> simp

theorem foldl_readOneInput_bookmarks (cfg : Config) (reg : Registry) :
    ∀ (names : List String) (c : Collection),
      (names.foldl (readOneInput cfg reg) c).bookmarks
        = c.bookmarks ++ (names.map (recordsOf cfg reg)).flatten := by
  intro names
  induction names with
  | nil => intro c; simp
  | cons name rest ih =>
    intro c
    simp only [List.foldl_cons, List.map_cons, List.flatten_cons]
    rw [ih (readOneInput cfg reg c name)]
    rw [readOneInput_bookmarks, List.append_assoc]

/-! ## Claim theorems: collection invariant and the orchestrator -/

/-- Counterexample to claim C2 as stated: after the orchestrator's
post-filter update (`cmd/serve.go` lines 196–205), the descriptor counts
still sum to the pre-filter total.  With one source contributing
`[bkPlain, bkJS]` and a rule set excluding the `javascript` protocol, the
filtered collection has 1 bookmark but its descriptors sum to 2. -/
theorem collection_invariant_broken_post_filter :
    sumCounts (runSyncFilteredCollection
        (Collection.Add NewCollection [bkPlain, bkJS] srcD) optsNoJS false).sources = 2 ∧
    (runSyncFilteredCollection
        (Collection.Add NewCollection [bkPlain, bkJS] srcD) optsNoJS false).bookmarks.length = 1 ∧
    sumCounts (runSyncFilteredCollection
        (Collection.Add NewCollection [bkPlain, bkJS] srcD) optsNoJS false).sources ≠
      ((runSyncFilteredCollection
        (Collection.Add NewCollection [bkPlain, bkJS] srcD) optsNoJS
          false).bookmarks.length : Int) := by
  refine ⟨rfl, rfl, ?_⟩
  decide

/-- Claim C2, amended: `sum(count) == len(bookmarks)` holds for the empty
collection and is preserved by `Collection.Add` (the code updates both
together there); but the orchestrator's post-filter update keeps the
ORIGINAL descriptors, so the filtered collection's descriptor counts sum
to the pre-filter bookmark count, not to its own bookmark count. -/
theorem collection_invariant_add_only :
    (sumCounts NewCollection.sources = (NewCollection.bookmarks.length : Int)) ∧
    (∀ (c : Collection) (bs : List Bookmark) (s : SourceInfo),
        sumCounts c.sources = (c.bookmarks.length : Int) →
        sumCounts (c.Add bs s).sources = ((c.Add bs s).bookmarks.length : Int)) ∧
    (∀ (c : Collection) (opts : FilterOptions) (dd : Bool),
        (runSyncFilteredCollection c opts dd).sources = c.sources) ∧
    (∀ (c : Collection) (opts : FilterOptions) (dd : Bool),
        sumCounts c.sources = (c.bookmarks.length : Int) →
        sumCounts (runSyncFilteredCollection c opts dd).sources
          = (c.bookmarks.length : Int)) := by
  refine ⟨rfl, ?_, ?_, ?_⟩
  · intro c bs s h
    simp only [Collection.Add, sumCounts, List.map_append, List.sum_append, List.map_cons,
      List.map_nil, List.sum_cons, List.sum_nil, List.length_append]
    rw [sumCounts] at h
    push_cast
    omega
  · intro c opts dd
    rfl
  · intro c opts dd h
    rw [show (runSyncFilteredCollection c opts dd).sources = c.sources from rfl]
    exact h

/-- Witness for the amended C2 at a concrete collection: adding
`[bkPlain]` to the empty collection keeps the invariant. -/
theorem collection_invariant_add_only_witness :
    sumCounts (NewCollection.Add [bkPlain] srcD).sources
      = ((NewCollection.Add [bkPlain] srcD).bookmarks.length : Int) :=
  collection_invariant_add_only.2.1 NewCollection [bkPlain] srcD rfl

/-- Counterexample to claim C3 as stated: a source whose read call
succeeds with zero records (`advEmptyChrome.readResult = .ok []`)
contributes NO descriptor in the all-sources path. -/
theorem empty_read_appends_no_descriptor :
    advEmptyChrome.readResult = ReadResult.ok [] ∧
    GetInput regEmptyRead "chrome" = some advEmptyChrome ∧
    (cfgAllEnabled "chrome").enabled = true ∧
    (readAllInputs cfgAllEnabled regEmptyRead NewCollection).sources = [] := by
  exact ⟨rfl, rfl, rfl, rfl⟩

/-- Claim C3, amended: in the all-sources read path a SourceDescriptor is
appended for a source exactly when the source is registered, enabled,
available, configures without error, and its read call succeeds with AT
LEAST ONE record; a successful read of zero records appends none.  The
first conjunct characterises the appended descriptors; the second gives,
for every source whose read call succeeds, the exact descriptor it
contributes (none when the record list is empty). -/
theorem readAllInputs_descriptor_iff_nonempty (cfg : Config) (reg : Registry) (c : Collection) :
    ((readAllInputs cfg reg c).sources
        = c.sources ++ inputPreference.filterMap (descriptorOf cfg reg)) ∧
    (∀ (name : String) (inp : InputAdapter) (bs : List Bookmark),
        GetInput reg name = some inp → (cfg name).enabled = true →
        inp.available = true → inp.configureOK = true →
        inp.readResult = ReadResult.ok bs →
        descriptorOf cfg reg name =
          match bs with
          | [] => none
          | b0 :: _ => some ⟨name, b0.profile, inp.path, (bs.length : Int)⟩) := by
  constructor
  · exact foldl_readOneInput_sources cfg reg inputPreference c
  · intro name inp bs hg he ha hc2 hr
    unfold descriptorOf
    rw [hg]
    simp only [he, ha, hc2, Bool.and_self, if_true, hr]

/-- Witness for the amended C3: with the concrete zero-record chrome
adapter, the characterisation yields no descriptor, and the appended
descriptor list is empty. -/
theorem readAllInputs_descriptor_iff_nonempty_witness :
    descriptorOf cfgAllEnabled regEmptyRead "chrome" = none ∧
    (readAllInputs cfgAllEnabled regEmptyRead NewCollection).sources
      = NewCollection.sources
        ++ inputPreference.filterMap (descriptorOf cfgAllEnabled regEmptyRead) := by
  constructor
  · have h := (readAllInputs_descriptor_iff_nonempty cfgAllEnabled regEmptyRead
      NewCollection).2 "chrome" advEmptyChrome [] rfl rfl rfl rfl rfl
    simpa using h
  · exact (readAllInputs_descriptor_iff_nonempty cfgAllEnabled regEmptyRead NewCollection).1

/-- Claim C7: in all-sources mode a failing source is skipped and never
fatal: with `chrome` reading 3 records, `firefox` failing, and no other
source registered, the resulting collection has exactly 3 records and
exactly one descriptor, for `chrome`; and the `no bookmarks found`
failure gate of `runSync` is not reached. -/
theorem readAllInputs_failed_source_skipped
    (bs : List Bookmark) (h3 : bs.length = 3) (e : String) :
    (readAllInputs cfgAllEnabled
        (RegisterInput (RegisterInput []
          ⟨"chrome", "Chrome", true, "/p1", true, .ok bs⟩)
          ⟨"firefox", "Firefox", true, "/p2", true, .err e⟩)
        NewCollection).bookmarks.length = 3 ∧
    (readAllInputs cfgAllEnabled
        (RegisterInput (RegisterInput []
          ⟨"chrome", "Chrome", true, "/p1", true, .ok bs⟩)
          ⟨"firefox", "Firefox", true, "/p2", true, .err e⟩)
        NewCollection).sources.map (·.name) = ["chrome"] ∧
    (readAllInputs cfgAllEnabled
        (RegisterInput (RegisterInput []
          ⟨"chrome", "Chrome", true, "/p1", true, .ok bs⟩)
          ⟨"firefox", "Firefox", true, "/p2", true, .err e⟩)
        NewCollection).CountBookmarks ≠ 0 := by
  rcases bs with _ | ⟨b0, rest⟩
  · simp at h3
  · refine ⟨?_, ?_, ?_⟩ <;>
      simp [readAllInputs, inputPreference, readOneInput, GetInput, RegisterInput, mapInsert,
        NewCollection, Collection.Add, Collection.CountBookmarks, cfgAllEnabled, h3]

/-- Witness for C7 at a concrete 3-record read and a concrete error. -/
theorem readAllInputs_failed_source_skipped_witness :
    (readAllInputs cfgAllEnabled
        (RegisterInput (RegisterInput []
          ⟨"chrome", "Chrome", true, "/p1", true, .ok [bkPlain, bkJS, bkChromium]⟩)
          ⟨"firefox", "Firefox", true, "/p2", true, .err "read failed"⟩)
        NewCollection).bookmarks.length = 3 :=
  (readAllInputs_failed_source_skipped [bkPlain, bkJS, bkChromium] rfl "read failed").1

/-! ## Claim theorems: MCP protocol server -/

/-- Claim C1, evaluated at a failing input: `handleResourcesRead` on the
source-suffixed URI `favs://safari` hands the renderer the FULL cached
collection — including the chromium bookmark — rather than one narrowed to
safari's bookmarks.  The default render-options bundle and the
`application/json` media type of the claim are used, but no narrowing
happens: `getBookmarks` ignores its URI argument. -/
theorem resources_read_ignores_source_suffix :
    ((handleResourcesRead cfgAllEnabled regTwo ⟨none⟩
        "favs://safari").1.collection.bookmarks.map (·.source)) = ["chromium", "safari"] ∧
    (handleResourcesRead cfgAllEnabled regTwo ⟨none⟩ "favs://safari").1.renderOpts
      = DefaultRenderOptions ∧
    (handleResourcesRead cfgAllEnabled regTwo ⟨none⟩ "favs://safari").1.mimeType
      = "application/json" ∧
    (handleResourcesRead cfgAllEnabled regTwo ⟨none⟩ "favs://safari").1.collection
      = mcpReadAll cfgAllEnabled regTwo := by
  refine ⟨?_, rfl, rfl, rfl⟩
  rfl

/-- Counterexample to claim C4 as stated: with one eligible source, the
second read is a cache hit (0 reader invocations, same content) — that
part holds — but the read AFTER a resync tool call performs 0 reader
invocations as well, because `toolSyncBookmarks` itself repopulates the
cache; the claim's "after a resync tool call, the next read re-runs the
all-sources read path" is false. -/
theorem resync_then_read_hits_cache :
    mcpReadCount cfgAllEnabled regOne = 1 ∧
    (getBookmarks cfgAllEnabled regOne ⟨none⟩ "favs://all").2.2 = 1 ∧
    (getBookmarks cfgAllEnabled regOne
      (getBookmarks cfgAllEnabled regOne ⟨none⟩ "favs://all").2.1 "favs://all").2.2 = 0 ∧
    (getBookmarks cfgAllEnabled regOne
      (getBookmarks cfgAllEnabled regOne ⟨none⟩ "favs://all").2.1 "favs://all").1
      = (getBookmarks cfgAllEnabled regOne ⟨none⟩ "favs://all").1 ∧
    (toolSyncBookmarks cfgAllEnabled regOne
      (getBookmarks cfgAllEnabled regOne
        (getBookmarks cfgAllEnabled regOne ⟨none⟩ "favs://all").2.1 "favs://all").2.1).2.2 = 1 ∧
    (getBookmarks cfgAllEnabled regOne
      (toolSyncBookmarks cfgAllEnabled regOne
        (getBookmarks cfgAllEnabled regOne
          (getBookmarks cfgAllEnabled regOne ⟨none⟩
            "favs://all").2.1 "favs://all").2.1).2.1 "favs://all").2.2 = 0 := by
  refine ⟨rfl, rfl, rfl, rfl, rfl, rfl⟩

/-- Claim C4, amended: a second read with a populated cache returns the
same collection with zero source-reader invocations; a resync tool call
invalidates the cache and ITSELF re-runs the all-sources read path
(performing the fresh reader invocations) leaving the cache populated
with the fresh collection, so the next read returns that fresh collection
from cache with zero further invocations. -/
theorem mcp_cache_hit_and_resync (cfg : Config) (reg : Registry) (st : ServerState)
    (c : Collection) (hc : st.cache = some c) :
    (∀ uri : String, getBookmarks cfg reg st uri = (c, st, 0)) ∧
    (∀ uri : String, getBookmarks cfg reg ⟨none⟩ uri =
        (mcpReadAll cfg reg, ⟨some (mcpReadAll cfg reg)⟩, mcpReadCount cfg reg)) ∧
    (toolSyncBookmarks cfg reg st =
        (mcpReadAll cfg reg, ⟨some (mcpReadAll cfg reg)⟩, mcpReadCount cfg reg)) ∧
    (getBookmarks cfg reg (toolSyncBookmarks cfg reg st).2.1 "favs://all" =
        (mcpReadAll cfg reg, ⟨some (mcpReadAll cfg reg)⟩, 0)) := by
  refine ⟨?_, ?_, ?_, ?_⟩
  · intro uri
    simp [getBookmarks, hc]
  · intro uri
    rfl
  · rfl
  · rfl

/-- Witness for the amended C4 at a concrete populated cache. -/
theorem mcp_cache_hit_and_resync_witness :
    getBookmarks cfgAllEnabled regOne ⟨some colW⟩ "favs://all" = (colW, ⟨some colW⟩, 0) :=
  (mcp_cache_hit_and_resync cfgAllEnabled regOne ⟨some colW⟩ colW rfl).1 "favs://all"

/-- Claim C10: against any cached collection, `search_bookmarks` with the
empty query matches every bookmark (the case-insensitive substring test
accepts the empty query), so the reported match count equals the
collection's size. -/
theorem search_empty_query_matches_all (cfg : Config) (reg : Registry) (st : ServerState)
    (c : Collection) (hc : st.cache = some c) :
    (toolSearchBookmarks cfg reg st "").1.1 = c.bookmarks ∧
    (toolSearchBookmarks cfg reg st "").1.2 = c.bookmarks.length := by
  have hall : ∀ s : String, containsIgnoreCase s "" = true := by
    intro s
    simp [containsIgnoreCase]
  have hm : searchMatches c "" = c.bookmarks := by
    simp [searchMatches, hall]
  constructor
  · simp [toolSearchBookmarks, getBookmarks, hc, hm]
  · simp [toolSearchBookmarks, getBookmarks, hc, hm]

/-- Witness for C10 at a concrete two-bookmark cached collection. -/
theorem search_empty_query_matches_all_witness :
    (toolSearchBookmarks cfgAllEnabled regOne ⟨some colW⟩ "").1.1 = colW.bookmarks ∧
    (toolSearchBookmarks cfgAllEnabled regOne ⟨some colW⟩ "").1.2 = colW.bookmarks.length :=
  search_empty_query_matches_all cfgAllEnabled regOne ⟨some colW⟩ colW rfl

end Favs
